import Mathlib

/-!
Verification of the skill-tracking application core (src/app.py).

Python strings are modelled as lists of characters (`Str`), so that Python
slicing (`p[len(old):]`), concatenation and `startswith` become `List.drop`,
`List.append` and `List.isPrefixOf` on `List Char`.  Python dicts holding a
skill record are modelled by the structure `Skill`; a key that may be absent
(the code reads it with `dict.get(key, default)`) is an `Option` field and the
corresponding `get` defaults are reproduced by the getters below.
-/

namespace SkillTree

/-- Sequence of Unicode code points, the model of a Python `str`. -/
abbrev Str := List Char

/-- Code points of a Lean string literal, used to write concrete inputs. -/
def chars (s : String) : Str := s.toList

/-- Model of a skill record, a JSON object in the `skills` array.
Fields read by the code through `dict.get` with a default are `Option`s. -/
structure Skill where
  name : Str
  path : Option Str
  proficiency : Option Int
  priority : Option Int
  memo : Str
deriving Repr, DecidableEq

/-- Model of Python `s.get("path", "")`. -/
def Skill.getPath (s : Skill) : Str := s.path.getD []

/-- Model of Python `int(s.get("proficiency", 0))` (app.py line 165). -/
def Skill.getProf (s : Skill) : Int := s.proficiency.getD 0

/-- Model of Python `int(s.get("priority", 1))` (app.py line 164). -/
def Skill.getPrio (s : Skill) : Int := s.priority.getD 1

/-- The urgency formula of `_calculate_urgency` (app.py line 166):
`urgency_score = prio * (5 - prof)` with the `get` defaults above. -/
def scoreSkill (s : Skill) : Int := s.getPrio * (5 - s.getProf)

/-- A skill dict after `_calculate_urgency` added the `urgency_score` key. -/
structure ScoredSkill where
  skill : Skill
  urgency_score : Int
deriving Repr, DecidableEq

/-- Comparator used to model the Python call sorting by the urgency key with
`reverse=True`: CPython `sorted` with `reverse=True` is a stable sort that
puts larger keys first, i.e. a stable sort for the relation
`b.urgency_score <= a.urgency_score`. -/
def scoreDesc (a b : ScoredSkill) : Bool := b.urgency_score ≤ a.urgency_score

/-- Model of `_calculate_urgency` (app.py lines 160-167): copy each record,
attach `urgency_score`, and stably sort by that score descending.
`List.mergeSort` is a stable sort, as CPython `sorted` is. -/
def _calculate_urgency (skills : List Skill) : List ScoredSkill :=
  (skills.map fun s => ⟨s, scoreSkill s⟩).mergeSort scoreDesc

/-- Model of `calculate_urgency` (app.py lines 169-170).  The round trip
through `frozenset(s.items())` and back through `dict(s)` preserves the
key/value content of every record, so it is the identity on this model. -/
def calculate_urgency (skills : List Skill) : List ScoredSkill :=
  _calculate_urgency skills

/-- The same `_calculate_urgency` loop applied to records that already carry
an `urgency_score` key (as happens when the ranked output is fed back in):
the assignment of `prio * (5 - prof)` to the urgency key overwrites the stale
value, everything else is unchanged. -/
def calculate_urgency_scored (l : List ScoredSkill) : List ScoredSkill :=
  (l.map fun x => ⟨x.skill, scoreSkill x.skill⟩).mergeSort scoreDesc

/-! String helpers mirroring the Python built-ins the code uses. -/

/-- Model of Python `str.strip()`: remove leading and trailing whitespace.
CPython strips every Unicode whitespace code point; the inputs the claims
touch only use ASCII whitespace, covered by `Char.isWhitespace`. -/
def strip (p : Str) : Str :=
  ((p.dropWhile Char.isWhitespace).reverse.dropWhile Char.isWhitespace).reverse

/-- Model of Python `str.isspace()`: non-empty and all whitespace. -/
def isspace (s : Str) : Bool := !s.isEmpty && s.all Char.isWhitespace

/-- Accumulator loop behind `splitOnChar`. -/
def splitOnCharAux (c : Char) : Str → Str → List Str
  | [], acc => [acc.reverse]
  | x :: xs, acc =>
    if x = c then acc.reverse :: splitOnCharAux c xs []
    else splitOnCharAux c xs (x :: acc)

/-- Model of Python `p.split(c)` for a one-character separator: splits at
every occurrence and keeps empty pieces, e.g. the split of an empty string
is one empty piece and a lone separator yields two empty pieces. -/
def splitOnChar (c : Char) (p : Str) : List Str := splitOnCharAux c p []

/-! The path rename operations (app.py lines 239-262). -/

/-- The per-skill transformation performed by the loop body of
`update_skill_paths` (app.py lines 241-247): exact match gets the new path;
with the recursive flag, a path starting with the old path plus a dot keeps
its tail verbatim after the new path; anything else is untouched. -/
def rewriteSkillPath (old_path new_path : Str) (recursive : Bool) (s : Skill) : Skill :=
  let p := s.getPath
  if p = old_path then { s with path := some new_path }
  else if recursive && (old_path ++ ['.']).isPrefixOf p then
    { s with path := some (new_path ++ p.drop old_path.length) }
  else s

/-- Whether the loop of `update_skill_paths` counts a skill as updated. -/
def skillHit (old_path : Str) (recursive : Bool) (s : Skill) : Bool :=
  s.getPath = old_path || (recursive && (old_path ++ ['.']).isPrefixOf s.getPath)

/-- Model of `update_skill_paths` (app.py lines 239-249) on the loaded skill
list: rewrites every matching path and counts the rewritten skills.  The
persistence call `save_data_and_clear_cache` is modelled by returning the
new list. -/
def update_skill_paths : List Skill → Str → Str → Bool → List Skill × Nat
  | [], _, _, _ => ([], 0)
  | s :: rest, old_path, new_path, recursive =>
    let t := update_skill_paths rest old_path new_path recursive
    let p := s.getPath
    if p = old_path then ({ s with path := some new_path } :: t.1, t.2 + 1)
    else if recursive && (old_path ++ ['.']).isPrefixOf p then
      ({ s with path := some (new_path ++ p.drop old_path.length) } :: t.1, t.2 + 1)
    else (s :: t.1, t.2)

/-- The per-path substitution in `update_defined_paths` (app.py lines 253-256). -/
def rewriteDefPath (old_path new_path : Str) (recursive : Bool) (p : Str) : Str :=
  if p = old_path then new_path
  else if recursive && (old_path ++ ['.']).isPrefixOf p then new_path ++ p.drop old_path.length
  else p

/-- Whether `update_defined_paths` sets its `changed` flag for a path. -/
def defPathHit (old_path : Str) (recursive : Bool) (p : Str) : Bool :=
  p = old_path || (recursive && (old_path ++ ['.']).isPrefixOf p)

/-- Model of `update_defined_paths` (app.py lines 251-257) on the loaded
defined-path list.  When nothing matched, the stored list is untouched.
When something matched, the code persists `list(set(new_paths))`, whose
enumeration order CPython leaves unspecified; it is modelled as a
first-occurrence deduplication, and no claim depends on that order. -/
def update_defined_paths (paths : List Str) (old_path new_path : Str) (recursive : Bool) : List Str :=
  let new_paths := paths.map (rewriteDefPath old_path new_path recursive)
  if paths.any (defPathHit old_path recursive) then new_paths.eraseDups else paths

/-- The profile document `{skills: [...], paths: [...]}` held in one JSON
file, with both keys present. -/
structure Profile where
  skills : List Skill
  paths : List Str
deriving Repr, DecidableEq

/-- Model of `update_path_references` (app.py lines 259-262): update the
skills, update the defined paths, and return only the skill count. -/
def update_path_references (prof : Profile) (old_path new_path : Str) (recursive : Bool) :
    Profile × Nat :=
  let r := update_skill_paths prof.skills old_path new_path recursive
  let newPaths := update_defined_paths prof.paths old_path new_path recursive
  (⟨r.1, newPaths⟩, r.2)

/-! The nested path mapping (app.py lines 229-237). -/

/-- A nested mapping from path segments to subtrees; children are kept in
dict insertion order, as a Python dict does. -/
inductive PathTree where
  | node : List (Str × PathTree) → PathTree

/-- Children list of a tree node. -/
def PathTree.children : PathTree → List (Str × PathTree)
  | .node cs => cs

/-- Model of `current[part] = value` on a dict: replace in place when the
key exists, append at the end otherwise. -/
def setChild : List (Str × PathTree) → Str → PathTree → List (Str × PathTree)
  | [], k, t => [(k, t)]
  | (k₁, t₁) :: cs, k, t =>
    if k₁ = k then (k₁, t) :: cs else (k₁, t₁) :: setChild cs k t

/-- Model of `current[part]` after `if part not in current: current[part] = {}`:
the existing child, or a fresh empty node. -/
def getChildD (cs : List (Str × PathTree)) (k : Str) : PathTree :=
  match cs.lookup k with
  | some t => t
  | none => .node []

/-- The inner `for part in parts` loop of `build_path_tree`: walk down the
chain of segments, creating empty children as needed. -/
def insertChain : List Str → PathTree → PathTree
  | [], t => t
  | k :: rest, .node cs => .node (setChild cs k (insertChain rest (getChildD cs k)))

/-- Model of `build_path_tree` (app.py lines 229-237).  Note the filter in
the comprehension (for part in the dot-split of p, if p.strip(), yield part.strip())
tests `p`, the whole path, not the segment `part`; so the stripped
segments are all kept (even empty ones) unless the whole path strips to
empty, in which case all are dropped.  The sibling comprehension in
`generate_tree_dot` (line 185) filters per segment instead. -/
def build_path_tree (paths : List Str) : PathTree :=
  paths.foldl
    (fun tree p =>
      let parts := ((splitOnChar '.' p).map strip).filter (fun _ => !(strip p).isEmpty)
      insertChain parts tree)
    (.node [])

/-! Profile-name validation (app.py lines 52-61). -/

/-- Characters prohibited in a profile name (app.py line 57). -/
def invalid_filename_chars : Str := chars "\\/:*?\"<>|"

/-- Model of `is_valid_profilename` (app.py lines 52-61).  The source also
returns a human-readable error message next to the flag; no claim concerns
the message text, so only the Boolean verdict is modelled.  The branches
are in source order: empty-or-whitespace, prohibited character, dot names. -/
def is_valid_profilename (name : Str) : Bool :=
  if name.isEmpty || isspace name then false
  else if name.any (fun c => invalid_filename_chars.contains c) then false
  else if name = chars "." || name = chars ".." then false
  else true

/-! Fail-soft profile loading (app.py lines 118-133).  The file system and
the JSON parser are abstracted into `StoredFile`: the file can be absent,
present but unparsable, or parsed into a document whose two keys may each
be missing. -/

/-- A parsed profile document; either top-level key may be absent. -/
structure JsonDoc where
  skills : Option (List Skill)
  paths : Option (List Str)
deriving Repr, DecidableEq

/-- State of the profile file on disk, as `_load_skill_tree` distinguishes
it: missing file, file whose contents raise a decode error, or parsed JSON. -/
inductive StoredFile where
  | absent : StoredFile
  | unparsable : StoredFile
  | parsed : JsonDoc → StoredFile

/-- The literal `{"skills": [], "paths": []}` returned on both failure
branches of `_load_skill_tree`. -/
def emptyDoc : JsonDoc := ⟨some [], some []⟩

/-- Model of `_load_skill_tree` (app.py lines 118-127): missing file and
parse failure both yield the empty document (the parse failure additionally
surfaces a warning to the UI, which has no data effect). -/
def _load_skill_tree : StoredFile → JsonDoc
  | .absent => emptyDoc
  | .unparsable => emptyDoc
  | .parsed d => d

/-- Model of `load_data` (app.py line 130): `.get("skills", [])`. -/
def load_data (f : StoredFile) : List Skill := (_load_skill_tree f).skills.getD []

/-- Model of `load_defined_paths` (app.py line 133): `.get("paths", [])`. -/
def load_defined_paths (f : StoredFile) : List Str := (_load_skill_tree f).paths.getD []

/-! The DOT graph description builder (app.py lines 172-226). -/

/-- Wrap a string in double quotes, the f-string pattern used for every
node identifier in `generate_tree_dot`. -/
def quote (x : Str) : Str := '"' :: (x ++ ['"'])

/-- The edge string built at app.py lines 188 and 212. -/
def edgeStr (parent child : Str) : Str := quote parent ++ chars " -> " ++ quote child

/-- Model of `set.add` on a set that is later enumerated: membership insert.
The enumeration order of a CPython set is unspecified; the determinism
theorem shows the emitted text does not depend on the order of this list. -/
def setInsert (x : Str) (s : List Str) : List Str := if s.contains x then s else s ++ [x]

/-- Model of `levels[lv].add x` on the `defaultdict(set)`: keys keep
insertion order (as dict iteration does), each value is a set. -/
def levelsAdd (lv : Nat) (x : Str) : List (Nat × List Str) → List (Nat × List Str)
  | [] => [(lv, [x])]
  | (k, s) :: rest =>
    if k = lv then (k, setInsert x s) :: rest else (k, s) :: levelsAdd lv x rest

/-- The comprehension at app.py lines 185 and 195: strip each piece of the
dot-split of the path and keep the non-empty ones (filter per segment). -/
def pathParts (path : Str) : List Str :=
  ((splitOnChar '.' path).map strip).filter (fun q => !q.isEmpty)

/-- The inner `for i, part in enumerate(parts)` loop of `generate_tree_dot`
(app.py lines 187-190), threading the edge set and level map. -/
def addChain : Str → Nat → List Str → List Str × List (Nat × List Str) →
    List Str × List (Nat × List Str)
  | _, _, [], acc => acc
  | parent, i, part :: rest, (edges, levels) =>
    addChain part (i + 1) rest
      (setInsert (edgeStr parent part) edges, levelsAdd (i + 1) (quote part) levels)

/-- The proficiency colour scale at app.py lines 205-208. -/
def leafColor (prof : Int) : Str :=
  if prof = 0 then chars "#e0e0e0"
  else if prof = 1 then chars "#ffcccc"
  else if prof ≤ 3 then chars "#fff4cc"
  else chars "#ccffcc"

/-- The body of the `for s in skills` loop (app.py lines 193-213): append
one node-declaration line, add one edge, record the leaf level.  The
Python `name.replace(chr(34), chr(92) + chr(34))` at line 200 replaces a
double quote by itself (the replacement literal is just a quote), so the
name is used as is.  `chr(42) * prio` yields the empty string for a
non-positive priority, hence `Int.toNat`. -/
def leafStep (root : Str) (acc : List Str × List Str × List (Nat × List Str)) (s : Skill) :
    List Str × List Str × List (Nat × List Str) :=
  let (dotLines, edges, levels) := acc
  let path := s.getPath
  let parts := pathParts path
  let parent := parts.getLastD root
  let prof : Int := s.proficiency.getD 0
  let prio : Int := s.priority.getD 0
  let display_name := s.name ++ [' '] ++ List.replicate prio.toNat '*'
  let leaf_id := chars "skill_" ++ s.name ++ ['_'] ++ path
  let line := chars "  " ++ quote leaf_id ++ chars " [label=" ++ quote display_name ++
    chars ", shape=note, fillcolor=" ++ quote (leafColor prof) ++ chars "];"
  (dotLines ++ [line],
   setInsert (edgeStr parent leaf_id) edges,
   levelsAdd (parts.length + 1) (quote leaf_id) levels)

/-- Lexicographic order on code-point sequences, the order CPython `sorted`
uses on strings. -/
def lexLe : Str → Str → Bool
  | [], _ => true
  | _ :: _, [] => false
  | a :: as, b :: bs =>
    if a < b then true
    else if a = b then lexLe as bs
    else false

/-- Model of `sorted(list(s))` on a set of strings. -/
def sortStr (l : List Str) : List Str := l.mergeSort lexLe

/-- The rank directive emitted for one level of the `levels` map when it
holds more than one node (app.py lines 220-223), with the nodes sorted. -/
def rankLine (kv : Nat × List Str) : Option Str :=
  if 1 < kv.2.length then
    some (chars "  \x7b rank=same; " ++ List.intercalate (chars "; ") (sortStr kv.2) ++
      chars " \x7d")
  else none

/-- The emission phase of `generate_tree_dot` (app.py lines 215-226): the
already-appended header and leaf lines, then the sorted edges, then one
rank directive per level holding more than one node, then the closing
brace, all joined by newlines. -/
def emitDot (headLines edges : List Str) (levels : List (Nat × List Str)) : Str :=
  let edgeLines := (sortStr edges).map (fun e => chars "  " ++ e ++ chars ";")
  let rankLines := levels.filterMap rankLine
  List.intercalate (chars "\n") (headLines ++ edgeLines ++ rankLines ++ [chars "\x7d"])

/-- Model of `generate_tree_dot` (app.py lines 172-226).  The root label is
the localized application title `chr(129504) + t(...)`; the `localization`
module is not among the modelled sources, so the label is taken as an
input, fixed for a given session language. -/
def generate_tree_dot (root_label : Str) (skills : List Skill) (all_paths : List Str)
    (show_leaves : Bool) : Str :=
  let header : List Str :=
    [chars "digraph G \x7b",
     chars "  rankdir=LR;",
     chars "  node [fontname=\"sans-serif\", shape=box, style=\"filled,rounded\", fillcolor=\"#f0f2f6\"];"]
  let st₀ : List Str × List (Nat × List Str) := ([], [(0, [quote root_label])])
  let st₁ := all_paths.foldl (fun acc path => addChain root_label 0 (pathParts path) acc) st₀
  let st₂ :=
    if show_leaves then skills.foldl (leafStep root_label) ([], st₁.1, st₁.2)
    else ([], st₁.1, st₁.2)
  emitDot (header ++ st₂.1) st₂.2.1 st₂.2.2

/-! Theorems. -/

theorem scoreDesc_trans (a b c : ScoredSkill) :
    scoreDesc a b → scoreDesc b c → scoreDesc a c := by
  simp only [scoreDesc, decide_eq_true_eq]
  exact fun h₁ h₂ => le_trans h₂ h₁

theorem scoreDesc_total (a b : ScoredSkill) : scoreDesc a b || scoreDesc b a := by
  simp only [scoreDesc, Bool.or_eq_true, decide_eq_true_eq]
  exact le_total b.urgency_score a.urgency_score

/-- The loop of `update_skill_paths` maps `rewriteSkillPath` over the list
and counts the skills for which a rewrite branch fired. -/
theorem update_skill_paths_eq (skills : List Skill) (o n : Str) (r : Bool) :
    update_skill_paths skills o n r
      = (skills.map (rewriteSkillPath o n r), skills.countP (skillHit o r)) := by
  induction skills with
  | nil => rfl
  | cons s rest ih =>
    simp only [update_skill_paths, ih, List.map_cons, List.countP_cons, rewriteSkillPath,
      skillHit]
    by_cases h₁ : s.getPath = o
    · simp [h₁]
    · by_cases h₂ : r && (o ++ ['.']).isPrefixOf s.getPath
      · simp [h₁, h₂]
      · simp [h₁, h₂]

/-- C5: `update_path_references` returns the number of skills whose path was
rewritten (the count of skills hitting a rewrite branch), and the
defined-path update contributes nothing to the count: the count ignores the
stored path list entirely and equals the count of `update_skill_paths`. -/
theorem path_rename_count_from_skills_only (skills : List Skill) (paths₁ paths₂ : List Str)
    (o n : Str) (r : Bool) :
    (update_path_references ⟨skills, paths₁⟩ o n r).2 = skills.countP (skillHit o r)
  ∧ (update_path_references ⟨skills, paths₁⟩ o n r).2
      = (update_path_references ⟨skills, paths₂⟩ o n r).2
  ∧ (update_path_references ⟨skills, paths₁⟩ o n r).2
      = (update_skill_paths skills o n r).2 := by
  refine ⟨?_, rfl, rfl⟩
  show (update_skill_paths skills o n r).2 = _
  rw [update_skill_paths_eq]

/-- C10: the skill-path update preserves the number and relative order of
the skills and leaves every field other than `path` (name, proficiency,
priority, memo) unchanged, skill by skill. -/
theorem skill_path_update_frame (skills : List Skill) (o n : Str) (r : Bool) :
    (update_skill_paths skills o n r).1.length = skills.length
  ∧ (update_skill_paths skills o n r).1.map
        (fun s => (s.name, s.proficiency, s.priority, s.memo))
      = skills.map (fun s => (s.name, s.proficiency, s.priority, s.memo)) := by
  rw [update_skill_paths_eq]
  refine ⟨by simp, ?_⟩
  rw [List.map_map]
  apply List.map_congr_left
  intro s _
  show (fun s => (s.name, s.proficiency, s.priority, s.memo)) (rewriteSkillPath o n r s) = _
  by_cases h₁ : s.getPath = o
  · simp [rewriteSkillPath, h₁]
  · by_cases h₂ : r && (o ++ ['.']).isPrefixOf s.getPath
    · simp [rewriteSkillPath, h₁, h₂]
    · simp [rewriteSkillPath, h₁, h₂]

/-- C2: `update_path_references` rewrites each skill path independently
(`rewriteSkillPath` mapped over the list), where an exact match of the old
path becomes the new path; with the recursive flag a path of the form
`old ++ [dot] ++ rest` becomes `new ++ [dot] ++ rest`, the remainder kept
verbatim; a path that is neither an exact match nor an
old-path-plus-dot-boundary descendant is untouched (in particular a mere
text-prefix match without the dot), and with the flag off any non-exact
match is untouched. -/
theorem skill_path_rewrite_cases (skills : List Skill) (dpaths : List Str)
    (o n : Str) (r : Bool) (s : Skill) :
    ((update_path_references ⟨skills, dpaths⟩ o n r).1.skills
        = skills.map (rewriteSkillPath o n r))
  ∧ (s.getPath = o → (rewriteSkillPath o n r s).path = some n)
  ∧ (∀ rest : Str, r = true → s.getPath = o ++ '.' :: rest →
        (rewriteSkillPath o n r s).path = some (n ++ '.' :: rest))
  ∧ (s.getPath ≠ o → (o ++ ['.']).isPrefixOf s.getPath = false →
        rewriteSkillPath o n r s = s)
  ∧ (r = false → s.getPath ≠ o → rewriteSkillPath o n r s = s) := by
  refine ⟨?_, ?_, ?_, ?_, ?_⟩
  · show (update_skill_paths skills o n r).1 = _
    rw [update_skill_paths_eq]
  · intro h
    simp [rewriteSkillPath, h]
  · intro rest hr h
    have hne : s.getPath ≠ o := by
      rw [h]
      intro heq
      have := congrArg List.length heq
      simp only [List.length_append, List.length_cons] at this
      omega
    have hpre : (o ++ ['.']).isPrefixOf s.getPath = true := by
      rw [h, show o ++ '.' :: rest = (o ++ ['.']) ++ rest by simp]
      exact List.isPrefixOf_iff_prefix.mpr (List.prefix_append _ _)
    have hdrop : s.getPath.drop o.length = '.' :: rest := by
      rw [h]; exact List.drop_left o ('.' :: rest)
    simp [rewriteSkillPath, hne, hr, hpre, hdrop]
  · intro h₁ h₂
    simp [rewriteSkillPath, h₁, h₂]
  · intro hr h₁
    simp [rewriteSkillPath, hr, h₁]

/-- Witness for C2 on the worked example of the specification: profile with
skill paths a.b, a.b.c and a.bc, renaming a.b to x.y recursively; the
second skill keeps its tail verbatim and the third is a false prefix match
left untouched. -/
theorem skill_path_rewrite_cases_witness :
    ((update_path_references
        ⟨[⟨chars "s1", some (chars "a.b"), some 3, some 2, []⟩,
          ⟨chars "s2", some (chars "a.b.c"), some 3, some 2, []⟩,
          ⟨chars "s3", some (chars "a.bc"), some 3, some 2, []⟩], []⟩
        (chars "a.b") (chars "x.y") true).1.skills
      = [⟨chars "s1", some (chars "a.b"), some 3, some 2, []⟩,
         ⟨chars "s2", some (chars "a.b.c"), some 3, some 2, []⟩,
         ⟨chars "s3", some (chars "a.bc"), some 3, some 2, []⟩].map
          (rewriteSkillPath (chars "a.b") (chars "x.y") true))
  ∧ (rewriteSkillPath (chars "a.b") (chars "x.y") true
        ⟨chars "s2", some (chars "a.b.c"), some 3, some 2, []⟩).path
      = some (chars "x.y" ++ '.' :: chars "c")
  ∧ rewriteSkillPath (chars "a.b") (chars "x.y") true
        ⟨chars "s3", some (chars "a.bc"), some 3, some 2, []⟩
      = ⟨chars "s3", some (chars "a.bc"), some 3, some 2, []⟩
  ∧ rewriteSkillPath (chars "a.b") (chars "x.y") false
        ⟨chars "s2", some (chars "a.b.c"), some 3, some 2, []⟩
      = ⟨chars "s2", some (chars "a.b.c"), some 3, some 2, []⟩ := by
  have h₂ := skill_path_rewrite_cases
    [⟨chars "s1", some (chars "a.b"), some 3, some 2, []⟩,
     ⟨chars "s2", some (chars "a.b.c"), some 3, some 2, []⟩,
     ⟨chars "s3", some (chars "a.bc"), some 3, some 2, []⟩] []
    (chars "a.b") (chars "x.y") true ⟨chars "s2", some (chars "a.b.c"), some 3, some 2, []⟩
  have h₃ := skill_path_rewrite_cases
    [⟨chars "s1", some (chars "a.b"), some 3, some 2, []⟩,
     ⟨chars "s2", some (chars "a.b.c"), some 3, some 2, []⟩,
     ⟨chars "s3", some (chars "a.bc"), some 3, some 2, []⟩] []
    (chars "a.b") (chars "x.y") true ⟨chars "s3", some (chars "a.bc"), some 3, some 2, []⟩
  have h₄ := skill_path_rewrite_cases
    [⟨chars "s1", some (chars "a.b"), some 3, some 2, []⟩,
     ⟨chars "s2", some (chars "a.b.c"), some 3, some 2, []⟩,
     ⟨chars "s3", some (chars "a.bc"), some 3, some 2, []⟩] []
    (chars "a.b") (chars "x.y") false ⟨chars "s2", some (chars "a.b.c"), some 3, some 2, []⟩
  exact ⟨h₂.1, h₂.2.2.1 (chars "c") rfl (by decide), h₃.2.2.2.1 (by decide) (by decide),
    h₄.2.2.2.2 rfl (by decide)⟩

/-- C1: for a skill with stored proficiency p in [0,5] and priority r in
one of 1, 2, 3, the urgency score of the scorer is r * (5 - p); under these
bounds it is 0 exactly when p = 5 and reaches the maximum 15 exactly when
p = 0 and r = 3.  The last conjunct ties the formula to the record the
scorer emits. -/
theorem scorer_score_formula (s : Skill) (p r : Int)
    (hp : s.proficiency = some p) (hr : s.priority = some r)
    (hp0 : 0 ≤ p) (hp5 : p ≤ 5) (hr3 : r = 1 ∨ r = 2 ∨ r = 3) :
    scoreSkill s = r * (5 - p)
  ∧ (scoreSkill s = 0 ↔ p = 5)
  ∧ (scoreSkill s = 15 ↔ (p = 0 ∧ r = 3))
  ∧ (_calculate_urgency [s]).map ScoredSkill.urgency_score = [r * (5 - p)] := by
  have hs : scoreSkill s = r * (5 - p) := by
    simp [scoreSkill, Skill.getPrio, Skill.getProf, hp, hr]
  refine ⟨hs, ?_, ?_, ?_⟩
  · rw [hs]; rcases hr3 with rfl | rfl | rfl <;> omega
  · rw [hs]; rcases hr3 with rfl | rfl | rfl <;> omega
  · simp [_calculate_urgency, hs]

/-- Witness for C1 at proficiency 1, priority 3 (score 12). -/
theorem scorer_score_formula_witness :
    scoreSkill ⟨chars "SQL", some (chars "Tech.DB"), some 1, some 3, []⟩ = 3 * (5 - 1)
  ∧ (scoreSkill ⟨chars "SQL", some (chars "Tech.DB"), some 1, some 3, []⟩ = 0 ↔ (1 : Int) = 5)
  ∧ (scoreSkill ⟨chars "SQL", some (chars "Tech.DB"), some 1, some 3, []⟩ = 15
        ↔ ((1 : Int) = 0 ∧ (3 : Int) = 3))
  ∧ (_calculate_urgency [⟨chars "SQL", some (chars "Tech.DB"), some 1, some 3, []⟩]).map
        ScoredSkill.urgency_score = [3 * (5 - 1)] :=
  scorer_score_formula ⟨chars "SQL", some (chars "Tech.DB"), some 1, some 3, []⟩ 1 3
    rfl rfl (by decide) (by decide) (Or.inr (Or.inr rfl))

/-- C3: the ranking operation returns exactly the input skills (each with
its score attached), arranged so that urgency scores are in descending
order. -/
theorem ranking_sorted_desc (skills : List Skill) :
    List.Pairwise (fun a b : ScoredSkill => b.urgency_score ≤ a.urgency_score)
      (calculate_urgency skills)
  ∧ (calculate_urgency skills).Perm (skills.map fun s => ⟨s, scoreSkill s⟩) := by
  constructor
  · have h := List.sorted_mergeSort scoreDesc_trans scoreDesc_total
      (skills.map fun s => ⟨s, scoreSkill s⟩)
    exact h.imp (fun hab => by simpa [scoreDesc] using hab)
  · exact List.mergeSort_perm _ _

/-- C9: re-ranking the ranked output changes nothing: the scorer recomputes
the same scores (overwriting the stale urgency field with an equal value)
and the stable sort leaves an already-sorted list untouched. -/
theorem ranking_idempotent (skills : List Skill) :
    calculate_urgency_scored (calculate_urgency skills) = calculate_urgency skills := by
  unfold calculate_urgency_scored calculate_urgency _calculate_urgency
  have hmap : (((skills.map fun s => (⟨s, scoreSkill s⟩ : ScoredSkill)).mergeSort scoreDesc).map
      fun x => (⟨x.skill, scoreSkill x.skill⟩ : ScoredSkill))
      = (skills.map fun s => (⟨s, scoreSkill s⟩ : ScoredSkill)).mergeSort scoreDesc := by
    have hall : ∀ x ∈ (skills.map fun s => (⟨s, scoreSkill s⟩ : ScoredSkill)).mergeSort scoreDesc,
        (⟨x.skill, scoreSkill x.skill⟩ : ScoredSkill) = id x := by
      intro x hx
      rw [List.mem_mergeSort] at hx
      obtain ⟨t, _, rfl⟩ := List.mem_map.mp hx
      rfl
    rw [List.map_congr_left hall, List.map_id]
  rw [hmap]
  exact List.mergeSort_of_sorted
    (List.sorted_mergeSort scoreDesc_trans scoreDesc_total _)

/-- C6: loading fails soft: an absent profile file and an unparsable one
both load as the empty document with empty skill and path lists, and a
parsed document missing the skills (resp. paths) key loads as an empty
skill (resp. path) list; no case raises. -/
theorem profile_load_fails_soft (d : JsonDoc) :
    _load_skill_tree .absent = emptyDoc
  ∧ _load_skill_tree .unparsable = emptyDoc
  ∧ load_data .absent = [] ∧ load_defined_paths .absent = []
  ∧ load_data .unparsable = [] ∧ load_defined_paths .unparsable = []
  ∧ (d.skills = none → load_data (.parsed d) = [])
  ∧ (d.paths = none → load_defined_paths (.parsed d) = []) := by
  refine ⟨rfl, rfl, rfl, rfl, rfl, rfl, ?_, ?_⟩
  · intro h; simp [load_data, _load_skill_tree, h]
  · intro h; simp [load_defined_paths, _load_skill_tree, h]

/-- Witness for C6 at the document with both keys missing. -/
theorem profile_load_fails_soft_witness :
    _load_skill_tree .absent = emptyDoc
  ∧ _load_skill_tree .unparsable = emptyDoc
  ∧ load_data .absent = [] ∧ load_defined_paths .absent = []
  ∧ load_data .unparsable = [] ∧ load_defined_paths .unparsable = []
  ∧ load_data (.parsed ⟨none, none⟩) = []
  ∧ load_defined_paths (.parsed ⟨none, none⟩) = [] := by
  have h := profile_load_fails_soft ⟨none, none⟩
  exact ⟨h.1, h.2.1, h.2.2.1, h.2.2.2.1, h.2.2.2.2.1, h.2.2.2.2.2.1,
    h.2.2.2.2.2.2.1 rfl, h.2.2.2.2.2.2.2 rfl⟩

/-- C7: profile-name validation rejects the empty name, the all-whitespace
name, a name containing a slash, and the two dot names, while accepting
the names work and 2024-plan. -/
theorem profile_name_validation_cases :
    is_valid_profilename (chars "") = false
  ∧ is_valid_profilename (chars "  ") = false
  ∧ is_valid_profilename (chars "a/b") = false
  ∧ is_valid_profilename (chars ".") = false
  ∧ is_valid_profilename (chars "..") = false
  ∧ is_valid_profilename (chars "work") = true
  ∧ is_valid_profilename (chars "2024-plan") = true := by
  decide

/-- C4: on the specification example the tree is as claimed, but the claim
that empty segments are discarded fails on the code: for the single path
dot-A the split yields an empty first segment, the comprehension filter
tests the whole path (which does not strip to empty), so the empty segment
is kept and becomes a key of the resulting mapping. -/
theorem build_path_tree_at_bug_input :
    build_path_tree [chars "A.B", chars "A.C", chars "D"]
      = .node [(chars "A", .node [(chars "B", .node []), (chars "C", .node [])]),
               (chars "D", .node [])]
  ∧ build_path_tree [chars ".A"]
      = .node [([], .node [(chars "A", .node [])])] :=
  ⟨rfl, rfl⟩

theorem lexLe_total : ∀ a b : Str, lexLe a b || lexLe b a
  | [], b => by simp [lexLe]
  | a :: as, [] => by simp [lexLe]
  | a :: as, b :: bs => by
    simp only [lexLe]
    rcases lt_trichotomy a b with h | h | h
    · simp [h]
    · subst h
      simpa [lt_irrefl] using lexLe_total as bs
    · simp [h, lt_asymm h, (ne_of_gt h).symm]

theorem lexLe_trans : ∀ a b c : Str, lexLe a b → lexLe b c → lexLe a c
  | [], _, _, _, _ => rfl
  | _ :: _, [], _, h, _ => by simp [lexLe] at h
  | _ :: _, _ :: _, [], _, h => by simp [lexLe] at h
  | a :: as, b :: bs, c :: cs, h₁, h₂ => by
    simp only [lexLe] at h₁ h₂ ⊢
    by_cases hab : a < b
    · by_cases hbc : b < c
      · simp [lt_trans hab hbc]
      · by_cases hbc' : b = c
        · subst hbc'; simp [hab]
        · simp [hbc, hbc'] at h₂
    · by_cases hab' : a = b
      · subst hab'
        simp only [lt_irrefl, if_false, if_pos rfl] at h₁
        by_cases hbc : a < c
        · simp [hbc]
        · by_cases hbc' : a = c
          · subst hbc'
            simp only [lt_irrefl, if_false, if_pos rfl] at h₂ ⊢
            exact lexLe_trans as bs cs h₁ h₂
          · simp [hbc, hbc'] at h₂
      · simp [hab, hab'] at h₁

theorem lexLe_antisymm : ∀ a b : Str, lexLe a b → lexLe b a → a = b
  | [], [], _, _ => rfl
  | [], _ :: _, _, h => by simp [lexLe] at h
  | _ :: _, [], h, _ => by simp [lexLe] at h
  | a :: as, b :: bs, h₁, h₂ => by
    simp only [lexLe] at h₁ h₂
    by_cases hab : a < b
    · simp [lt_asymm hab, (ne_of_lt hab).symm] at h₂
    · by_cases hab' : a = b
      · subst hab'
        simp only [lt_irrefl, if_false, if_pos rfl] at h₁ h₂
        rw [lexLe_antisymm as bs h₁ h₂]
      · simp [hab, hab'] at h₁

/-- Sorting is a function of the set being enumerated: two enumerations of
the same collection of strings sort to the same list. -/
theorem sortStr_perm_congr {l₁ l₂ : List Str} (h : l₁.Perm l₂) : sortStr l₁ = sortStr l₂ := by
  haveI : IsAntisymm Str (fun a b : Str => lexLe a b = true) := ⟨lexLe_antisymm⟩
  exact List.eq_of_perm_of_sorted
    ((List.mergeSort_perm l₁ lexLe).trans (h.trans (List.mergeSort_perm l₂ lexLe).symm))
    (List.sorted_mergeSort lexLe_trans lexLe_total l₁)
    (List.sorted_mergeSort lexLe_trans lexLe_total l₂)

/-- The rank directive for a level depends only on the set of nodes
recorded at that level, not on the enumeration order. -/
theorem rankLine_perm_congr {k : Nat} {s₁ s₂ : List Str} (h : s₁.Perm s₂) :
    rankLine (k, s₁) = rankLine (k, s₂) := by
  unfold rankLine
  rw [show s₁.length = s₂.length from h.length_eq, sortStr_perm_congr h]

theorem rank_lines_perm_congr : ∀ {l₁ l₂ : List (Nat × List Str)},
    List.Forall₂ (fun a b => a.1 = b.1 ∧ a.2.Perm b.2) l₁ l₂ →
    l₁.filterMap rankLine = l₂.filterMap rankLine := by
  intro l₁ l₂ h
  induction h with
  | nil => rfl
  | @cons a b as bs hab _ ih =>
    rw [List.filterMap_cons, List.filterMap_cons, ih,
      show rankLine a = rankLine b by
        obtain ⟨h1, h2⟩ := hab
        obtain ⟨ka, sa⟩ := a
        obtain ⟨kb, sb⟩ := b
        cases h1
        exact rankLine_perm_congr h2]

/-- The emission phase is a function of the edge set and of each level node
set: enumerating either collection in any other order yields the identical
text. -/
theorem emitDot_perm_invariant (headLines : List Str) {edges edges' : List Str}
    {levels levels' : List (Nat × List Str)} (he : edges'.Perm edges)
    (hl : List.Forall₂ (fun a b => a.1 = b.1 ∧ a.2.Perm b.2) levels' levels) :
    emitDot headLines edges' levels' = emitDot headLines edges levels := by
  unfold emitDot
  rw [sortStr_perm_congr he, rank_lines_perm_congr hl]

/-- C8: the graph-description builder is deterministic: for a fixed root
label, skill list, path list and show-leaves flag it is a pure function, so
two calls with identical input give byte-identical text; moreover the only
internally unordered data, the edge set and the per-level node sets, are
emitted through sorting, so the output text does not depend on the order in
which those collections are enumerated. -/
theorem tree_dot_deterministic (root_label : Str) (skills : List Skill)
    (all_paths : List Str) (show_leaves : Bool) (headLines : List Str)
    (edges edges' : List Str) (levels levels' : List (Nat × List Str))
    (he : edges'.Perm edges)
    (hl : List.Forall₂ (fun a b => a.1 = b.1 ∧ a.2.Perm b.2) levels' levels) :
    generate_tree_dot root_label skills all_paths show_leaves
      = generate_tree_dot root_label skills all_paths show_leaves
  ∧ emitDot headLines edges' levels' = emitDot headLines edges levels :=
  ⟨rfl, emitDot_perm_invariant headLines he hl⟩

/-- Witness for C8: a two-element edge set and a two-node level enumerated
in the two possible orders emit the same text. -/
theorem tree_dot_deterministic_witness :
    generate_tree_dot (chars "T") [] [] true = generate_tree_dot (chars "T") [] [] true
  ∧ emitDot [] [chars "a", chars "b"] [(1, [chars "y", chars "x"])]
      = emitDot [] [chars "b", chars "a"] [(1, [chars "x", chars "y"])] :=
  tree_dot_deterministic (chars "T") [] [] true []
    [chars "b", chars "a"] [chars "a", chars "b"]
    [(1, [chars "x", chars "y"])] [(1, [chars "y", chars "x"])]
    (List.Perm.swap (chars "b") (chars "a") [])
    (List.Forall₂.cons ⟨rfl, List.Perm.swap (chars "x") (chars "y") []⟩ List.Forall₂.nil)

end SkillTree
